import Mathlib

/-!
Shallow embedding of the agentic-RAG workshop repository (utils.py, tools.py,
main.py) and proofs about it.

Modelling conventions:
* Python floats are modelled as rationals (`Rat`); the program never computes
  with them, it only passes them through and formats them.
* The external sentence-transformers model and the docling converter are
  modelled by an `ExternalEnv` record of oracle functions.
* Python exceptions are modelled with `Except String`.
* The qdrant server is modelled by an explicit `QdrantState` threaded through
  the client calls.
-/

set_option autoImplicit false

namespace Workshop

/-- Distance metric of a qdrant collection (`qdrant_client.http.models.Distance`);
the code only uses `Distance.COSINE`. -/
inductive Distance where
  | cosine
  | euclid
  | dot
deriving DecidableEq, Repr

/-- `qdrant_client.http.models.VectorParams`: vector size and distance metric. -/
structure VectorParams where
  size : Nat
  distance : Distance
deriving DecidableEq, Repr

/-- `qdrant_client.http.models.PointStruct`: id, vector and payload.  The
payload is a string-keyed dictionary; this code only ever stores string
values, so it is modelled as an association list of strings. -/
structure PointStruct where
  id : Nat
  vector : List Rat
  payload : List (String × String)
deriving DecidableEq, Repr

/-- A scored point as returned by `qdrant_client.query_points`
(an element of `QueryResponse.points`). -/
structure ScoredPoint where
  score : Rat
  payload : List (String × String)
deriving DecidableEq, Repr

/-- A collection stored on the qdrant server: its vector configuration and its
points. -/
structure Collection where
  vectors_config : VectorParams
  points : List PointStruct
deriving DecidableEq, Repr

/-- `qdrant_client.http.models.CollectionDescription`: the element type of
`client.get_collections().collections` — a description object carrying the
collection name, NOT a plain string. -/
structure CollectionDescription where
  name : String
deriving DecidableEq, Repr

/-- The qdrant server state: the named collections it holds. -/
structure QdrantState where
  collections : List (String × Collection)
deriving DecidableEq, Repr

/-- `utils.EmbeddingsAndText`: a pydantic record of one chunk and its
embedding vector. -/
structure EmbeddingsAndText where
  text : String
  embedding : List Rat
deriving DecidableEq, Repr

/-- The external collaborators of the program, as oracles:
`dim` is `SentenceTransformer.get_sentence_embedding_dimension()`,
`encode` is `SentenceTransformer.encode(text).tolist()` (which may raise), and
`convert` is docling conversion followed by `export_to_text()` on a file path
(which may raise on an unreadable or unparseable file). -/
structure ExternalEnv where
  dim : Nat
  encode : String → Except String (List Rat)
  convert : String → Except String String

/-- Association-list lookup of a collection by name on the qdrant server. -/
def findCollection : List (String × Collection) → String → Option Collection
  | [], _ => none
  | (n, c) :: rest, name => if n = name then some c else findCollection rest name

/-- Replace the collection stored under `name` (used by the server when
points are uploaded into an existing collection). -/
def setCollection : List (String × Collection) → String → Collection → List (String × Collection)
  | [], name, c => [(name, c)]
  | (n, c0) :: rest, name, c =>
    if n = name then (n, c) :: rest else (n, c0) :: setCollection rest name c

/-- `client.get_collections().collections`: the list of
`CollectionDescription` objects, one per collection on the server. -/
def get_collections (s : QdrantState) : List CollectionDescription :=
  s.collections.map (fun p => ⟨p.1⟩)

/-- `client.create_collection(name, vectors_config)`: the server rejects the
request when a collection of that name already exists, otherwise it creates
an empty collection with the given vector configuration. -/
def qc_create_collection (s : QdrantState) (name : String) (params : VectorParams) :
    Except String QdrantState :=
  match findCollection s.collections name with
  | some _ => .error "Collection already exists"
  | none => .ok ⟨s.collections ++ [(name, ⟨params, []⟩)]⟩

/-- Python equality between a `str` and a `CollectionDescription`.  The
elements of `get_collections().collections` are pydantic model instances;
pydantic `BaseModel.__eq__` with a non-model operand returns `NotImplemented`,
`str.__eq__` with a model operand also returns `NotImplemented`, and Python
then falls back to identity, which is `False` for distinct objects.  So the
comparison is always `False`, whatever the name. -/
def pyStrEqDescription (_name : String) (_d : CollectionDescription) : Bool :=
  false

/-- `utils.create_qdrant_collection(name)`: reads the collection
descriptions, tests `name in collections` (Python membership, i.e. `==`
against each `CollectionDescription` element), and if the test fails calls
`create_collection` with size `get_transformer_model().get_sentence_embedding_dimension()`
and cosine distance; returns `True` in both branches. -/
def create_qdrant_collection (env : ExternalEnv) (s : QdrantState) (name : String) :
    Except String (QdrantState × Bool) :=
  let collections := get_collections s
  if collections.any (fun d => pyStrEqDescription name d) then
    .ok (s, true)
  else
    match qc_create_collection s name ⟨env.dim, Distance.cosine⟩ with
    | .error e => .error e
    | .ok s1 => .ok (s1, true)

/-- `utils.get_embeddings_and_text(texts)`: the for-loop appending
`EmbeddingsAndText(text=text, embedding=model.encode(text).tolist())` for each
text in order; an exception raised by `encode` aborts the whole call. -/
def get_embeddings_and_text (encode : String → Except String (List Rat)) :
    List String → Except String (List EmbeddingsAndText)
  | [] => .ok []
  | t :: rest =>
    match encode t with
    | .error e => .error e
    | .ok v =>
      match get_embeddings_and_text encode rest with
      | .error e => .error e
      | .ok out => .ok (⟨t, v⟩ :: out)

/-- The point list built by the comprehension in
`utils.ingest_vectors_in_qdrant`:
`PointStruct(id=idx, vector=doc.embedding, payload=("text" maps to doc.text))`
for `idx, doc in enumerate(embeddings_and_text)`, with `start` the next
enumeration index. -/
def ingest_points_from (start : Nat) : List EmbeddingsAndText → List PointStruct
  | [] => []
  | d :: rest => ⟨start, d.embedding, [("text", d.text)]⟩ :: ingest_points_from (start + 1) rest

/-- The full point list of `utils.ingest_vectors_in_qdrant` (enumeration
starts at 0). -/
def ingest_points (docs : List EmbeddingsAndText) : List PointStruct :=
  ingest_points_from 0 docs

/-- Server-side upsert of one point: a point with the same id is overwritten. -/
def upsertPoint (pts : List PointStruct) (p : PointStruct) : List PointStruct :=
  pts.filter (fun q => q.id ≠ p.id) ++ [p]

/-- `client.upload_points(collection_name, points)`: upserts each point into
the named collection; fails when the collection does not exist. -/
def upload_points (s : QdrantState) (name : String) (pts : List PointStruct) :
    Except String QdrantState :=
  match findCollection s.collections name with
  | none => .error "Collection not found"
  | some col =>
    .ok ⟨setCollection s.collections name ⟨col.vectors_config, pts.foldl upsertPoint col.points⟩⟩

/-- `utils.ingest_vectors_in_qdrant(name, embeddings_and_text)`: uploads the
comprehension-built point list into the named collection. -/
def ingest_vectors_in_qdrant (s : QdrantState) (name : String)
    (embeddings_and_text : List EmbeddingsAndText) : Except String QdrantState :=
  upload_points s name (ingest_points embeddings_and_text)

/-- A `SentenceTransformer` handle.  `handleId` records which instantiation
produced the handle, so that handle identity (Python `is`) is observable in
the model. -/
structure SentenceTransformer where
  modelName : String
  handleId : Nat
deriving DecidableEq, Repr

/-- The process-wide state relevant to `utils.get_transformer_model`: the
module-level variable `transformer_model` (initially `None`) together with a
count of how many times `SentenceTransformer(...)` has been instantiated. -/
structure ProcState where
  transformer_model : Option SentenceTransformer
  instantiations : Nat
deriving DecidableEq, Repr

/-- `utils.get_transformer_model()`: if the global `transformer_model` is
`None`, instantiate `SentenceTransformer("all-mpnet-base-v2")` and store it;
return the stored handle. -/
def get_transformer_model (s : ProcState) : SentenceTransformer × ProcState :=
  match s.transformer_model with
  | some m => (m, s)
  | none =>
    let m : SentenceTransformer := ⟨"all-mpnet-base-v2", s.instantiations⟩
    (m, ⟨some m, s.instantiations + 1⟩)

/-- The f-string of one result line in `tools.search_in_qdrant`:
`"Score: ..., Text: ..."` with the rendered score and the text found under
the payload key `"text"`. -/
def format_line (score : Rat) (text : String) : String :=
  "Score: " ++ toString score ++ ", Text: " ++ text

/-- The list comprehension in `tools.search_in_qdrant`: one formatted line
per returned point, in order; accessing `result.payload["text"]` raises a
`KeyError` when the key is absent. -/
def format_results : List ScoredPoint → Except String (List String)
  | [] => .ok []
  | p :: rest =>
    match p.payload.lookup "text" with
    | none => .error "KeyError: text"
    | some t =>
      match format_results rest with
      | .error e => .error e
      | .ok out => .ok (format_line p.score t :: out)

/-- `tools.search_in_qdrant(query)` (the closure produced by
`get_prepared_collection`): encodes the query with the transformer model,
calls `query_points` on the store with `limit=5`, and formats each returned
point.  The store is modelled by the oracle `query_points`, mapping a query
vector and a limit to the scored points it returns. -/
def search_in_qdrant (env : ExternalEnv)
    (query_points : List Rat → Nat → List ScoredPoint) (query : String) :
    Except String (List String) :=
  match env.encode query with
  | .error e => .error e
  | .ok v => format_results (query_points v 5)

/-- Chop a character list into consecutive pieces of at most `max n 1`
characters: the final, always-applicable character-boundary split. -/
def chopChars (n : Nat) (text : List Char) : List (List Char) :=
  if text = [] then []
  else text.take (max n 1) :: chopChars n (text.drop (max n 1))
termination_by text.length
decreasing_by
  simp only [List.length_drop]
  have hpos : 0 < text.length := List.length_pos.mpr (by assumption)
  omega

/-- Split a character list on every occurrence of the separator sequence
`sep` (matching Python `str.split(sep)` for a non-empty separator); with an
empty separator the text is returned whole. -/
def splitOnSeq (sep : List Char) (text : List Char) : List (List Char) :=
  if hsep : sep.length = 0 then [text]
  else if hpre : text.take sep.length = sep then
    [] :: splitOnSeq sep (text.drop sep.length)
  else
    match text with
    | [] => [[]]
    | c :: rest =>
      match splitOnSeq sep rest with
      | [] => [[c]]
      | piece :: pieces => (c :: piece) :: pieces
termination_by text.length
decreasing_by
  · have hlen : (text.take sep.length).length = sep.length := by
      rw [hpre]
    rw [List.length_take] at hlen
    simp only [List.length_drop]
    omega
  · simp

/-- Modelled from the spec: the recursive character splitting performed by
`RecursiveCharacterTextSplitter` (from `langchain_text_splitters`, a
third-party library whose code is not part of this repository).  Following
the spec, the text "must attempt to split first on paragraph boundaries,
then line boundaries, then spaces, then arbitrary character boundaries,
preferring the largest separator that keeps chunks under the size bound":
a text within the bound is kept whole, otherwise it is split on the current
separator and every piece is handled with the remaining, smaller separators,
character boundaries last.  Overlap between adjacent chunks is not modelled;
it does not affect the length bound. -/
def splitBySeps (seps : List (List Char)) (n : Nat) (text : List Char) : List (List Char) :=
  if text.length ≤ n then [text]
  else
    match seps with
    | [] => chopChars n text
    | sep :: rest => (splitOnSeq sep text).flatMap (fun piece => splitBySeps rest n piece)

/-- The separator preference order of `utils.convert_pdf_to_chunks`:
paragraph boundary, line boundary, space; the empty separator (arbitrary
character boundary) is the terminal `chopChars` case of `splitBySeps`. -/
def chunkSeparators : List (List Char) :=
  [['\n', '\n'], ['\n'], [' ']]

/-- Modelled from the spec: the chunking of `utils.convert_pdf_to_chunks`
applied to already-converted document text — split into chunks using the
separator preference order and the size bound. -/
def split_text (chunk_size : Nat) (text : String) : List String :=
  (splitBySeps chunkSeparators chunk_size text.toList).map (fun cs => String.mk cs)

/-- `utils.convert_pdf_to_chunks(file_path, chunk_size=350, chunk_overlap=50)`:
convert the PDF to text (docling, may raise) and split the text into chunks.
The splitting itself is modelled from the spec (see `splitBySeps`). -/
def convert_pdf_to_chunks (env : ExternalEnv) (file_path : String)
    (chunk_size : Nat := 350) (_chunk_overlap : Nat := 50) :
    Except String (List String) :=
  match env.convert file_path with
  | .error e => .error e
  | .ok text => .ok (split_text chunk_size text)

/-- `main.COLLECTION_NAME`. -/
def COLLECTION_NAME : String := "agentic_ai_power_workshop"

/-- `main.prepare_data()`: the four pipeline steps in order —
create collection, chunk the PDF, embed all chunks, upload all points.
The qdrant state is threaded through the steps that reach the server; a
raised exception stops the pipeline, leaving the state as the completed
steps left it, and is reported in the second component. -/
def prepare_data (env : ExternalEnv) (s : QdrantState) : QdrantState × Option String :=
  match create_qdrant_collection env s COLLECTION_NAME with
  | .error e => (s, some e)
  | .ok (s1, _) =>
    match convert_pdf_to_chunks env "HR-POLICIES-1-1-1.pdf" with
    | .error e => (s1, some e)
    | .ok chunks =>
      match get_embeddings_and_text env.encode chunks with
      | .error e => (s1, some e)
      | .ok embeddings_and_text =>
        match ingest_vectors_in_qdrant s1 COLLECTION_NAME embeddings_and_text with
        | .error e => (s1, some e)
        | .ok s2 => (s2, none)

/-- `main.AnswerAndConfidence`: the validated structured output. -/
structure AnswerAndConfidence where
  answer : String
  confidence : Rat
deriving DecidableEq, Repr

/-- Pydantic validation of `main.AnswerAndConfidence` on a raw response:
both fields are required (`Field(...)`) and `confidence` must be a float.
The model declares `Field(..., description=...)` with a description only —
no `ge`/`le` bound — so validation imposes NO range constraint on
`confidence`. -/
def validate_answer_and_confidence (answer : Option String) (confidence : Option Rat) :
    Option AnswerAndConfidence :=
  match answer, confidence with
  | some a, some c => some ⟨a, c⟩
  | _, _ => none

/-- A concrete external environment used to exercise the definitions on
closed inputs: a 2-dimensional embedding model whose `encode` always
returns `[1, 0]`, and a converter that always yields the text
"hello world". -/
def sampleEnv : ExternalEnv :=
  ⟨2, fun _ => .ok [1, 0], fun _ => .ok "hello world"⟩

/-- A concrete external environment whose PDF conversion raises
(an unreadable file). -/
def failEnv : ExternalEnv :=
  ⟨2, fun _ => .ok [1, 0], fun _ => .error "file not found"⟩

/-! ### Helper lemmas -/

lemma any_pyStrEqDescription_eq_false (name : String) (l : List CollectionDescription) :
    l.any (fun d => pyStrEqDescription name d) = false := by
  induction l with
  | nil => rfl
  | cons d rest ih => simp [List.any_cons, pyStrEqDescription, ih]

lemma create_qdrant_collection_fresh (env : ExternalEnv) (s : QdrantState) (name : String)
    (h : findCollection s.collections name = none) :
    create_qdrant_collection env s name =
      .ok (⟨s.collections ++ [(name, ⟨⟨env.dim, Distance.cosine⟩, []⟩)]⟩, true) := by
  simp [create_qdrant_collection, any_pyStrEqDescription_eq_false, qc_create_collection, h]

lemma findCollection_append_singleton (l : List (String × Collection)) (name : String)
    (c : Collection) (h : findCollection l name = none) :
    findCollection (l ++ [(name, c)]) name = some c := by
  induction l with
  | nil => simp [findCollection]
  | cons p rest ih =>
    obtain ⟨n, c0⟩ := p
    by_cases hn : n = name
    · simp [findCollection, hn] at h
    · simp only [List.cons_append, findCollection, if_neg hn] at h ⊢
      exact ih h

lemma findCollection_setCollection_self (l : List (String × Collection)) (name : String)
    (c cnew : Collection) (h : findCollection l name = some c) :
    findCollection (setCollection l name cnew) name = some cnew := by
  induction l with
  | nil => simp [findCollection] at h
  | cons p rest ih =>
    obtain ⟨n, c0⟩ := p
    by_cases hn : n = name
    · simp [findCollection, setCollection, hn]
    · simp only [findCollection, if_neg hn] at h
      simp only [setCollection, if_neg hn, findCollection]
      exact ih h

lemma mem_foldl_upsertPoint (pts : List PointStruct) (init : List PointStruct) (p : PointStruct)
    (h : p ∈ pts.foldl upsertPoint init) : p ∈ init ∨ p ∈ pts := by
  induction pts generalizing init with
  | nil => exact Or.inl h
  | cons q rest ih =>
    rw [List.foldl_cons] at h
    rcases ih (upsertPoint init q) h with h1 | h1
    · rcases List.mem_append.mp h1 with h2 | h2
      · exact Or.inl (List.mem_of_mem_filter h2)
      · right
        simp only [List.mem_singleton] at h2
        simp [h2]
    · exact Or.inr (List.mem_cons_of_mem _ h1)

lemma foldl_upsertPoint_ingest (docs : List EmbeddingsAndText) (start : Nat)
    (init : List PointStruct) (h : ∀ q ∈ init, q.id < start) :
    (ingest_points_from start docs).foldl upsertPoint init =
      init ++ ingest_points_from start docs := by
  induction docs generalizing start init with
  | nil => simp [ingest_points_from]
  | cons d rest ih =>
    have hfilter : init.filter (fun q => q.id ≠ start) = init := by
      apply List.filter_eq_self.mpr
      intro q hq
      simpa using Nat.ne_of_lt (h q hq)
    have hupsert : upsertPoint init ⟨start, d.embedding, [("text", d.text)]⟩ =
        init ++ [⟨start, d.embedding, [("text", d.text)]⟩] := by
      simp only [upsertPoint]
      simp only [List.append_cancel_right_eq]
      apply List.filter_eq_self.mpr
      intro a ha
      simpa using Nat.ne_of_lt (h a ha)
    have hinit : ∀ q ∈ init ++ [(⟨start, d.embedding, [("text", d.text)]⟩ : PointStruct)],
        q.id < start + 1 := by
      intro q hq
      rcases List.mem_append.mp hq with h1 | h1
      · exact Nat.lt_succ_of_lt (h q h1)
      · simp only [List.mem_singleton] at h1
        simp [h1]
    simp only [ingest_points_from, List.foldl_cons, hupsert, ih (start + 1) _ hinit,
      List.append_assoc, List.singleton_append]

lemma ingest_points_from_length (docs : List EmbeddingsAndText) (start : Nat) :
    (ingest_points_from start docs).length = docs.length := by
  induction docs generalizing start with
  | nil => rfl
  | cons d rest ih => simp [ingest_points_from, ih]

lemma ingest_points_from_getElem (docs : List EmbeddingsAndText) (start i : Nat) :
    (ingest_points_from start docs)[i]? =
      docs[i]?.map (fun d => ⟨start + i, d.embedding, [("text", d.text)]⟩) := by
  induction docs generalizing start i with
  | nil => simp [ingest_points_from]
  | cons d rest ih =>
    cases i with
    | zero => simp [ingest_points_from]
    | succ j =>
      simp only [ingest_points_from, List.getElem?_cons_succ, ih (start + 1) j]
      have : start + 1 + j = start + (j + 1) := by omega
      rw [this]

lemma ingest_points_from_mem (docs : List EmbeddingsAndText) (start : Nat) (p : PointStruct)
    (h : p ∈ ingest_points_from start docs) :
    ∃ d ∈ docs, p.vector = d.embedding ∧ p.payload = [("text", d.text)] := by
  induction docs generalizing start with
  | nil => simp [ingest_points_from] at h
  | cons d rest ih =>
    rcases List.mem_cons.mp h with h1 | h1
    · exact ⟨d, List.mem_cons_self d rest, by simp [h1]⟩
    · obtain ⟨d2, hd2, hprop⟩ := ih (start + 1) h1
      exact ⟨d2, List.mem_cons_of_mem _ hd2, hprop⟩

lemma get_embeddings_and_text_mem (encode : String → Except String (List Rat))
    (texts : List String) (out : List EmbeddingsAndText)
    (h : get_embeddings_and_text encode texts = .ok out) :
    ∀ r ∈ out, encode r.text = .ok r.embedding := by
  induction texts generalizing out with
  | nil =>
    simp only [get_embeddings_and_text, Except.ok.injEq] at h
    subst h
    simp
  | cons t rest ih =>
    rw [get_embeddings_and_text] at h
    cases he : encode t with
    | error e => rw [he] at h; exact absurd h (by simp)
    | ok v =>
      rw [he] at h
      cases hr : get_embeddings_and_text encode rest with
      | error e => rw [hr] at h; exact absurd h (by simp)
      | ok out2 =>
        rw [hr] at h
        simp only [Except.ok.injEq] at h
        subst h
        intro r hr2
        rcases List.mem_cons.mp hr2 with h1 | h1
        · subst h1; exact he
        · exact ih out2 hr r h1

lemma format_results_ok (ps : List ScoredPoint) (textOf : ScoredPoint → String)
    (h : ∀ p ∈ ps, p.payload.lookup "text" = some (textOf p)) :
    format_results ps = .ok (ps.map (fun p => format_line p.score (textOf p))) := by
  induction ps with
  | nil => rfl
  | cons p rest ih =>
    have hp := h p (List.mem_cons_self p rest)
    rw [format_results, hp, ih (fun q hq => h q (List.mem_cons_of_mem _ hq))]
    simp

theorem chopChars_sound (n : Nat) (text : List Char) :
    ∀ piece ∈ chopChars n text, piece.length ≤ max n 1 := by
  rw [chopChars]
  by_cases h : text = []
  · simp [h]
  · rw [if_neg h]
    intro piece hp
    rcases List.mem_cons.mp hp with h1 | h1
    · subst h1
      exact List.length_take_le _ _
    · exact chopChars_sound n (text.drop (max n 1)) piece h1
termination_by text.length
decreasing_by
  simp only [List.length_drop]
  have hpos : 0 < text.length := List.length_pos.mpr h
  omega

theorem splitBySeps_sound (seps : List (List Char)) (n : Nat) (hn : 1 ≤ n) (text : List Char) :
    ∀ piece ∈ splitBySeps seps n text, piece.length ≤ n := by
  induction seps generalizing text with
  | nil =>
    intro piece hp
    rw [splitBySeps] at hp
    by_cases h : text.length ≤ n
    · rw [if_pos h] at hp
      simp only [List.mem_singleton] at hp
      subst hp
      exact h
    · rw [if_neg h] at hp
      have := chopChars_sound n text piece hp
      rwa [Nat.max_eq_left hn] at this
  | cons sep rest ih =>
    intro piece hp
    rw [splitBySeps] at hp
    by_cases h : text.length ≤ n
    · rw [if_pos h] at hp
      simp only [List.mem_singleton] at hp
      subst hp
      exact h
    · rw [if_neg h] at hp
      rcases List.mem_flatMap.mp hp with ⟨sub, _, hpiece⟩
      exact ih sub piece hpiece

/-! ### Claim theorems -/

/-- C1: the claim says collection creation is idempotent — a second call with
the same name is a no-op and does not raise.  The code violates this: the
membership test `name in get_collections().collections` compares a string
against `CollectionDescription` objects and is therefore always false, so the
second call issues `create_collection` again and the server raises
"Collection already exists". -/
theorem create_collection_second_call_errors :
    create_qdrant_collection sampleEnv ⟨[]⟩ COLLECTION_NAME =
      .ok (⟨[(COLLECTION_NAME, ⟨⟨2, Distance.cosine⟩, []⟩)]⟩, true) ∧
    create_qdrant_collection sampleEnv ⟨[(COLLECTION_NAME, ⟨⟨2, Distance.cosine⟩, []⟩)]⟩
      COLLECTION_NAME = .error "Collection already exists" :=
  ⟨rfl, rfl⟩

/-- C2: the claim says schema validation constrains `confidence` to lie in
the interval from 0 to 1.  The code violates this: the pydantic field
declares only a description and no bound, so a response with
`confidence = 2` validates and is returned. -/
theorem validate_answer_and_confidence_accepts_out_of_range :
    validate_answer_and_confidence (some "yes") (some 2) = some ⟨"yes", 2⟩ ∧
    ¬ ((2 : Rat) ≤ 1) :=
  ⟨rfl, by norm_num⟩

/-- C3: ingesting N embedding records into a collection uploads exactly N
points whose ids are 0..N-1 in input order, the i-th vector being the i-th
embedding and the i-th payload mapping "text" to the i-th record text. -/
theorem ingest_vectors_in_qdrant_spec (s : QdrantState) (name : String) (vp : VectorParams)
    (docs : List EmbeddingsAndText) (s2 : QdrantState)
    (hcol : findCollection s.collections name = some ⟨vp, []⟩)
    (hok : ingest_vectors_in_qdrant s name docs = .ok s2) :
    findCollection s2.collections name = some ⟨vp, ingest_points docs⟩ ∧
    (ingest_points docs).length = docs.length ∧
    ∀ (i : Nat) (d : EmbeddingsAndText), docs[i]? = some d →
      (ingest_points docs)[i]? = some ⟨i, d.embedding, [("text", d.text)]⟩ := by
  refine ⟨?_, ?_, ?_⟩
  · unfold ingest_vectors_in_qdrant upload_points at hok
    rw [hcol] at hok
    simp only [Except.ok.injEq] at hok
    subst hok
    have hfold : (ingest_points docs).foldl upsertPoint ([] : List PointStruct) =
        ingest_points docs := by
      have := foldl_upsertPoint_ingest docs 0 [] (by intro q hq; simp at hq)
      simpa [ingest_points] using this
    have := findCollection_setCollection_self s.collections name ⟨vp, []⟩
      ⟨vp, (ingest_points docs).foldl upsertPoint []⟩ hcol
    simpa [hfold] using this
  · simpa [ingest_points] using ingest_points_from_length docs 0
  · intro i d hd
    rw [ingest_points, ingest_points_from_getElem docs 0 i, hd]
    simp

/-- C4: the retrieval tool asks the store for at most 5 results and returns
one string per returned point, formatted exactly as
"Score: s, Text: t", in the order the store returned them. -/
theorem search_in_qdrant_spec (env : ExternalEnv)
    (query_points : List Rat → Nat → List ScoredPoint) (query : String) (v : List Rat)
    (results : List ScoredPoint) (textOf : ScoredPoint → String)
    (henc : env.encode query = .ok v)
    (hres : query_points v 5 = results)
    (htext : ∀ p ∈ results, p.payload.lookup "text" = some (textOf p)) :
    search_in_qdrant env query_points query =
      .ok (results.map (fun p => format_line p.score (textOf p))) := by
  simp only [search_in_qdrant, henc]
  rw [hres]
  exact format_results_ok results textOf htext

/-- C5: prepare_data runs create-collection, chunk, embed-all, upload-all in
order; if PDF conversion or embedding raises, the pipeline stops, the error
propagates, and no points are uploaded — the collection created in the first
step is left empty. -/
theorem prepare_data_abort_spec (env : ExternalEnv) (s : QdrantState) (e : String)
    (hfresh : findCollection s.collections COLLECTION_NAME = none)
    (hfail : convert_pdf_to_chunks env "HR-POLICIES-1-1-1.pdf" = .error e ∨
      ∃ chunks, convert_pdf_to_chunks env "HR-POLICIES-1-1-1.pdf" = .ok chunks ∧
        get_embeddings_and_text env.encode chunks = .error e) :
    prepare_data env s =
      (⟨s.collections ++ [(COLLECTION_NAME, ⟨⟨env.dim, Distance.cosine⟩, []⟩)]⟩, some e) := by
  rcases hfail with h | ⟨chunks, hc, hemb⟩
  · simp only [prepare_data, create_qdrant_collection_fresh env s COLLECTION_NAME hfresh, h]
  · simp only [prepare_data, create_qdrant_collection_fresh env s COLLECTION_NAME hfresh,
      hc, hemb]

/-- C6: the transformer model is memoized in process-wide state: a call with
the cache filled returns the cached handle and leaves the state unchanged; a
call with the empty cache instantiates exactly one model and stores it; and a
call immediately after any call returns the same handle with no further
instantiation. -/
theorem get_transformer_model_spec (s : ProcState) :
    (∀ m, s.transformer_model = some m → get_transformer_model s = (m, s)) ∧
    (s.transformer_model = none →
      (get_transformer_model s).1 = ⟨"all-mpnet-base-v2", s.instantiations⟩ ∧
      (get_transformer_model s).2 =
        ⟨some ⟨"all-mpnet-base-v2", s.instantiations⟩, s.instantiations + 1⟩) ∧
    get_transformer_model (get_transformer_model s).2 =
      ((get_transformer_model s).1, (get_transformer_model s).2) := by
  obtain ⟨tm, k⟩ := s
  cases tm with
  | none => refine ⟨?_, ?_, ?_⟩ <;> simp [get_transformer_model]
  | some m => refine ⟨?_, ?_, ?_⟩ <;> simp [get_transformer_model]

/-- C7: embedding a list of chunks yields exactly one record per chunk, in
input order, each record's text field being the corresponding chunk. -/
theorem get_embeddings_and_text_spec (encode : String → Except String (List Rat))
    (texts : List String) (out : List EmbeddingsAndText)
    (h : get_embeddings_and_text encode texts = .ok out) :
    out.length = texts.length ∧
    ∀ (i : Nat) (t : String), texts[i]? = some t →
      ∃ v, encode t = .ok v ∧ out[i]? = some ⟨t, v⟩ := by
  induction texts generalizing out with
  | nil =>
    simp only [get_embeddings_and_text, Except.ok.injEq] at h
    subst h
    simp
  | cons t rest ih =>
    rw [get_embeddings_and_text] at h
    cases he : encode t with
    | error e => rw [he] at h; exact absurd h (by simp)
    | ok v =>
      rw [he] at h
      cases hr : get_embeddings_and_text encode rest with
      | error e => rw [hr] at h; exact absurd h (by simp)
      | ok out2 =>
        rw [hr] at h
        simp only [Except.ok.injEq] at h
        subst h
        obtain ⟨hlen, hidx⟩ := ih out2 hr
        refine ⟨by simp [hlen], ?_⟩
        intro i t2 ht
        cases i with
        | zero =>
          simp only [List.getElem?_cons_zero, Option.some.injEq] at ht
          subst ht
          exact ⟨v, he, by simp⟩
        | succ j =>
          simp only [List.getElem?_cons_succ] at ht ⊢
          exact hidx j t2 ht

/-- C8: every chunk produced by convert_pdf_to_chunks has length at most the
chunk size (for any positive chunk size; the terminal character-boundary
split means no unsplittable token survives above the bound). -/
theorem convert_pdf_to_chunks_bound (env : ExternalEnv) (file_path : String)
    (chunk_size chunk_overlap : Nat) (chunks : List String) (c : String)
    (hn : 1 ≤ chunk_size)
    (hok : convert_pdf_to_chunks env file_path chunk_size chunk_overlap = .ok chunks)
    (hc : c ∈ chunks) : c.length ≤ chunk_size := by
  unfold convert_pdf_to_chunks at hok
  cases hcv : env.convert file_path with
  | error e => rw [hcv] at hok; exact absurd hok (by simp)
  | ok text =>
    rw [hcv] at hok
    simp only [Except.ok.injEq] at hok
    subst hok
    simp only [split_text, List.mem_map] at hc
    obtain ⟨piece, hpiece, hmk⟩ := hc
    subst hmk
    exact splitBySeps_sound chunkSeparators chunk_size hn text.toList piece hpiece

/-- C9: every point built by the ingestion pipeline has a payload whose only
key is "text", so formatting retrieval results drawn from such points never
raises a KeyError. -/
theorem ingest_payload_text_safe (docs : List EmbeddingsAndText)
    (scoreOf : PointStruct → Rat) :
    (∀ p ∈ ingest_points docs, p.payload.map Prod.fst = ["text"]) ∧
    ∃ out, format_results ((ingest_points docs).map
      (fun q => ⟨scoreOf q, q.payload⟩)) = .ok out ∧ out.length = docs.length := by
  have hmem : ∀ p ∈ ingest_points docs, ∃ d ∈ docs,
      p.vector = d.embedding ∧ p.payload = [("text", d.text)] :=
    fun p hp => ingest_points_from_mem docs 0 p hp
  constructor
  · intro p hp
    obtain ⟨d, _, _, hpay⟩ := hmem p hp
    simp [hpay]
  · refine ⟨((ingest_points docs).map (fun q => (⟨scoreOf q, q.payload⟩ : ScoredPoint))).map
      (fun p => format_line p.score ((p.payload.lookup "text").getD "")), ?_, ?_⟩
    · apply format_results_ok
      intro p hp
      simp only [List.mem_map] at hp
      obtain ⟨q2, hq2, hpq⟩ := hp
      obtain ⟨d, _, _, hpay⟩ := hmem q2 hq2
      subst hpq
      simp [hpay, List.lookup]
    · simp [ingest_points, ingest_points_from_length]

/-- C10: dimensions are consistent by construction — when the external model
always emits vectors of its advertised dimension, a successful pipeline run
from a fresh server leaves a collection configured with exactly that
dimension and cosine distance, every uploaded point vector has that length,
and so does every encoded query vector. -/
theorem vector_dimensions_consistent (env : ExternalEnv) (s s2 : QdrantState)
    (col : Collection) (q : String) (v : List Rat)
    (hdim : ∀ t w, env.encode t = .ok w → w.length = env.dim)
    (hfresh : findCollection s.collections COLLECTION_NAME = none)
    (hrun : prepare_data env s = (s2, none))
    (hcol : findCollection s2.collections COLLECTION_NAME = some col)
    (hq : env.encode q = .ok v) :
    col.vectors_config.size = env.dim ∧ col.vectors_config.distance = Distance.cosine ∧
    (∀ p ∈ col.points, p.vector.length = env.dim) ∧ v.length = env.dim := by
  simp only [prepare_data, create_qdrant_collection_fresh env s COLLECTION_NAME hfresh] at hrun
  cases hcv : convert_pdf_to_chunks env "HR-POLICIES-1-1-1.pdf" with
  | error e => simp [hcv] at hrun
  | ok chunks =>
    simp only [hcv] at hrun
    cases hemb : get_embeddings_and_text env.encode chunks with
    | error e => simp [hemb] at hrun
    | ok eat =>
      simp only [hemb] at hrun
      have hfind1 : findCollection
          (s.collections ++ [(COLLECTION_NAME, ⟨⟨env.dim, Distance.cosine⟩, []⟩)])
          COLLECTION_NAME = some ⟨⟨env.dim, Distance.cosine⟩, []⟩ :=
        findCollection_append_singleton s.collections COLLECTION_NAME _ hfresh
      simp only [ingest_vectors_in_qdrant, upload_points, hfind1] at hrun
      simp only [Prod.mk.injEq, and_true] at hrun
      subst hrun
      have hfind2 := findCollection_setCollection_self
        (s.collections ++ [(COLLECTION_NAME, ⟨⟨env.dim, Distance.cosine⟩, []⟩)])
        COLLECTION_NAME ⟨⟨env.dim, Distance.cosine⟩, []⟩
        ⟨⟨env.dim, Distance.cosine⟩, (ingest_points eat).foldl upsertPoint []⟩ hfind1
      rw [hfind2] at hcol
      simp only [Option.some.injEq] at hcol
      subst hcol
      refine ⟨rfl, rfl, ?_, hdim q v hq⟩
      intro p hp
      rcases mem_foldl_upsertPoint (ingest_points eat) [] p hp with h1 | h1
      · simp at h1
      · obtain ⟨d, hd, hvec, _⟩ := ingest_points_from_mem eat 0 p h1
        have := get_embeddings_and_text_mem env.encode chunks eat hemb d hd
        rw [hvec]
        exact hdim d.text d.embedding this

/-! ### Witnesses: the claim theorems applied at concrete inputs -/

/-- Witness for C3: ingesting one record into an empty collection named "c". -/
theorem ingest_vectors_in_qdrant_spec_witness :
    findCollection [("c", ⟨⟨2, Distance.cosine⟩, []⟩)] "c" = some ⟨⟨2, Distance.cosine⟩, []⟩ ∧
    ingest_vectors_in_qdrant ⟨[("c", ⟨⟨2, Distance.cosine⟩, []⟩)]⟩ "c" [⟨"a", [1, 0]⟩] =
      .ok ⟨[("c", ⟨⟨2, Distance.cosine⟩, [⟨0, [1, 0], [("text", "a")]⟩]⟩)]⟩ ∧
    (findCollection
        (⟨[("c", ⟨⟨2, Distance.cosine⟩, [⟨0, [1, 0], [("text", "a")]⟩]⟩)]⟩ :
          QdrantState).collections "c" =
      some ⟨⟨2, Distance.cosine⟩, ingest_points [⟨"a", [1, 0]⟩]⟩ ∧
    (ingest_points [⟨"a", [(1 : Rat), 0]⟩]).length = 1 ∧
    ∀ (i : Nat) (d : EmbeddingsAndText),
      ([⟨"a", [(1 : Rat), 0]⟩] : List EmbeddingsAndText)[i]? = some d →
        (ingest_points [⟨"a", [(1 : Rat), 0]⟩])[i]? =
          some ⟨i, d.embedding, [("text", d.text)]⟩) :=
  ⟨rfl, rfl,
    ingest_vectors_in_qdrant_spec ⟨[("c", ⟨⟨2, Distance.cosine⟩, []⟩)]⟩ "c"
      ⟨2, Distance.cosine⟩ [⟨"a", [1, 0]⟩]
      ⟨[("c", ⟨⟨2, Distance.cosine⟩, [⟨0, [1, 0], [("text", "a")]⟩]⟩)]⟩ rfl rfl⟩

/-- Witness for C4: a store returning one point with score 1 and payload
text "hello". -/
theorem search_in_qdrant_spec_witness :
    sampleEnv.encode "q" = .ok [1, 0] ∧
    (fun (_ : List Rat) (_ : Nat) => [(⟨1, [("text", "hello")]⟩ : ScoredPoint)]) [1, 0] 5 =
      [(⟨1, [("text", "hello")]⟩ : ScoredPoint)] ∧
    (∀ p ∈ [(⟨1, [("text", "hello")]⟩ : ScoredPoint)],
      p.payload.lookup "text" = some "hello") ∧
    search_in_qdrant sampleEnv
        (fun (_ : List Rat) (_ : Nat) => [(⟨1, [("text", "hello")]⟩ : ScoredPoint)]) "q" =
      .ok ([(⟨1, [("text", "hello")]⟩ : ScoredPoint)].map
        (fun p => format_line p.score "hello")) :=
  ⟨rfl, rfl,
    by intro p hp; rw [List.mem_singleton] at hp; subst hp; rfl,
    search_in_qdrant_spec sampleEnv
      (fun _ _ => [⟨1, [("text", "hello")]⟩]) "q" [1, 0]
      [⟨1, [("text", "hello")]⟩] (fun _ => "hello") rfl rfl
      (by intro p hp; rw [List.mem_singleton] at hp; subst hp; rfl)⟩

/-- Witness for C5: a pipeline run whose PDF conversion raises. -/
theorem prepare_data_abort_spec_witness :
    findCollection ([] : List (String × Collection)) COLLECTION_NAME = none ∧
    convert_pdf_to_chunks failEnv "HR-POLICIES-1-1-1.pdf" = .error "file not found" ∧
    prepare_data failEnv ⟨[]⟩ =
      (⟨[] ++ [(COLLECTION_NAME, ⟨⟨2, Distance.cosine⟩, []⟩)]⟩, some "file not found") :=
  ⟨rfl, rfl, prepare_data_abort_spec failEnv ⟨[]⟩ "file not found" rfl (Or.inl rfl)⟩

/-- Witness for C6: a call on a state whose cache already holds a handle
returns that handle and leaves the state unchanged. -/
theorem get_transformer_model_spec_witness :
    get_transformer_model ⟨some ⟨"all-mpnet-base-v2", 0⟩, 1⟩ =
      (⟨"all-mpnet-base-v2", 0⟩, ⟨some ⟨"all-mpnet-base-v2", 0⟩, 1⟩) :=
  (get_transformer_model_spec ⟨some ⟨"all-mpnet-base-v2", 0⟩, 1⟩).1
    ⟨"all-mpnet-base-v2", 0⟩ rfl

/-- Witness for C7: embedding the chunks "a" and "b" with an encoder that
always returns the vector with single entry 1. -/
theorem get_embeddings_and_text_spec_witness :
    get_embeddings_and_text (fun _ => .ok [(1 : Rat)]) ["a", "b"] =
      .ok [⟨"a", [1]⟩, ⟨"b", [1]⟩] ∧
    (([⟨"a", [(1 : Rat)]⟩, ⟨"b", [1]⟩] : List EmbeddingsAndText).length =
      (["a", "b"] : List String).length ∧
    ∀ (i : Nat) (t : String), (["a", "b"] : List String)[i]? = some t →
      ∃ v, (fun (_ : String) => (Except.ok [(1 : Rat)] : Except String (List Rat))) t = .ok v ∧
        ([⟨"a", [(1 : Rat)]⟩, ⟨"b", [1]⟩] : List EmbeddingsAndText)[i]? = some ⟨t, v⟩) :=
  ⟨rfl, get_embeddings_and_text_spec (fun _ => .ok [(1 : Rat)]) ["a", "b"]
    [⟨"a", [1]⟩, ⟨"b", [1]⟩] rfl⟩

/-- Witness for C8: converting a document whose text is "hello world" with
chunk size 350 yields the single chunk "hello world", of length at most 350. -/
theorem convert_pdf_to_chunks_bound_witness :
    1 ≤ 350 ∧
    convert_pdf_to_chunks sampleEnv "f.pdf" 350 50 = .ok ["hello world"] ∧
    "hello world" ∈ ["hello world"] ∧
    ("hello world" : String).length ≤ 350 :=
  ⟨by decide, rfl, List.mem_singleton.mpr rfl,
    convert_pdf_to_chunks_bound sampleEnv "f.pdf" 350 50 ["hello world"] "hello world"
      (by decide) rfl (List.mem_singleton.mpr rfl)⟩

/-- Witness for C9: the pipeline points of a single record, scored
constantly 1, format without a KeyError. -/
theorem ingest_payload_text_safe_witness :
    (∀ p ∈ ingest_points [⟨"a", [(1 : Rat), 0]⟩], p.payload.map Prod.fst = ["text"]) ∧
    ∃ out, format_results ((ingest_points [⟨"a", [(1 : Rat), 0]⟩]).map
      (fun q => ⟨(1 : Rat), q.payload⟩)) = .ok out ∧
      out.length = ([⟨"a", [(1 : Rat), 0]⟩] : List EmbeddingsAndText).length :=
  ingest_payload_text_safe [⟨"a", [1, 0]⟩] (fun _ => 1)

/-- Witness for C10: a full successful pipeline run with the sample
2-dimensional model. -/
theorem vector_dimensions_consistent_witness :
    (∀ (t : String) (w : List Rat), sampleEnv.encode t = .ok w → w.length = sampleEnv.dim) ∧
    findCollection ([] : List (String × Collection)) COLLECTION_NAME = none ∧
    prepare_data sampleEnv ⟨[]⟩ =
      (⟨[(COLLECTION_NAME, ⟨⟨2, Distance.cosine⟩,
        [⟨0, [1, 0], [("text", "hello world")]⟩]⟩)]⟩, none) ∧
    findCollection
        (⟨[(COLLECTION_NAME, ⟨⟨2, Distance.cosine⟩,
          [⟨0, [1, 0], [("text", "hello world")]⟩]⟩)]⟩ : QdrantState).collections
        COLLECTION_NAME =
      some ⟨⟨2, Distance.cosine⟩, [⟨0, [1, 0], [("text", "hello world")]⟩]⟩ ∧
    sampleEnv.encode "q" = .ok [1, 0] ∧
    ((⟨⟨2, Distance.cosine⟩,
        [⟨0, [1, 0], [("text", "hello world")]⟩]⟩ : Collection).vectors_config.size =
      sampleEnv.dim ∧
    (⟨⟨2, Distance.cosine⟩,
        [⟨0, [1, 0], [("text", "hello world")]⟩]⟩ : Collection).vectors_config.distance =
      Distance.cosine ∧
    (∀ p ∈ (⟨⟨2, Distance.cosine⟩,
        [⟨0, [1, 0], [("text", "hello world")]⟩]⟩ : Collection).points,
      p.vector.length = sampleEnv.dim) ∧
    ([(1 : Rat), 0] : List Rat).length = sampleEnv.dim) :=
  have hdim : ∀ (t : String) (w : List Rat), sampleEnv.encode t = .ok w → w.length = 2 :=
    fun _ w h => by injection h with h1; rw [← h1]; rfl
  ⟨hdim, rfl, rfl, rfl, rfl,
    vector_dimensions_consistent sampleEnv ⟨[]⟩
      ⟨[(COLLECTION_NAME, ⟨⟨2, Distance.cosine⟩,
        [⟨0, [1, 0], [("text", "hello world")]⟩]⟩)]⟩
      ⟨⟨2, Distance.cosine⟩, [⟨0, [1, 0], [("text", "hello world")]⟩]⟩
      "q" [1, 0] hdim rfl rfl rfl rfl⟩

end Workshop
